import Mathlib

/-!
Verification development for `generate-recipes-json.py`, a batch tool that
converts a directory of `.qmd` recipe documents (YAML-ish frontmatter plus a
markdown body) into one JSON array of recipe records.

The Python source is shallowly embedded here.  Documents are raw text,
modelled as `List Char` (the list of the file's characters; `'\n'` separates
lines, exactly as in the file).  The two regular expressions of the source
(`^---\s*\n(.*?)\n---\s*\n` with DOTALL for the frontmatter, and
`##\s+Ingrédients\s*\n(.*?)(?=\n##|\Z)` with DOTALL|IGNORECASE for the
ingredient section) are embedded by explicit backtracking scanners that
follow the Python `re` semantics (greedy `\s*` with backtracking, lazy
`(.*?)`, `re.match` anchoring vs `re.search` scanning).  Python exceptions
that the per-file `try` of `parse_recipe_file` catches are modelled with
`Except String`.  `\s` is modelled as the six ASCII whitespace characters
(the inputs of interest are ASCII text plus `é`); case-insensitivity is
modelled for ASCII letters plus `é`/`É`, which covers the literal
`Ingrédients` of the source pattern.
-/

namespace MesRecettes

abbrev Chars := List Char

/-- Python `\s` / `str.strip()` whitespace, restricted to the ASCII range. -/
def isPySpace (c : Char) : Bool :=
  c = ' ' || c = '\t' || c = '\n' || c = '\r' || c = '\x0b' || c = '\x0c'

/-- Python `str.lstrip()`. -/
def pyLstrip (cs : Chars) : Chars := cs.dropWhile isPySpace

/-- Python `str.rstrip()`. -/
def pyRstrip (cs : Chars) : Chars := (cs.reverse.dropWhile isPySpace).reverse

/-- Python `str.strip()`. -/
def pyStrip (cs : Chars) : Chars := pyRstrip (pyLstrip cs)

/-- Python `str.strip(set)`: drop the characters of `set` from both ends. -/
def stripSet (set : List Char) (cs : Chars) : Chars :=
  ((cs.dropWhile set.contains).reverse.dropWhile set.contains).reverse

/-- Python `str.strip('"\'')`, as applied to values and list items. -/
def stripQuotes (cs : Chars) : Chars := stripSet ['"', '\''] cs

/-- Python `str.split(sep)` for a one-character separator: always returns at
least one (possibly empty) piece, like `''.split(',') == ['']`. -/
def splitChar (sep : Char) : Chars → List Chars
  | [] => [[]]
  | c :: rest =>
    let r := splitChar sep rest
    if c = sep then [] :: r
    else
      match r with
      | [] => [[c]]
      | h :: t => (c :: h) :: t

/-- Does the character list start with the given character? (Python
`str.startswith` for a one-character prefix.) -/
def startsWithChar (c : Char) : Chars → Bool
  | [] => false
  | c' :: _ => c' = c

/-! ### The frontmatter regular expression

`re.match(r'^---\s*\n(.*?)\n---\s*\n', content, re.DOTALL)` in
`parse_yaml_frontmatter`.  The scanner below reproduces the backtracking
behaviour: the opening `---\s*\n` can end at any `'\n'` inside the maximal
whitespace run following the leading `---` (the engine prefers the longest
consumption and backtracks), and the lazy `(.*?)` stops at the earliest
position where `\n---\s*\n` matches. -/

/-- Does `\n---\s*\n` match at the head of `cs`? -/
def closingAt (cs : Chars) : Bool :=
  match cs with
  | '\n' :: rest =>
    rest.take 3 = ['-', '-', '-'] &&
      ((rest.drop 3).takeWhile isPySpace).contains '\n'
  | _ => false

/-- Index of the earliest match of `\n---\s*\n` (the lazy `(.*?)` stops
there). -/
def findClosing : Chars → Option Nat
  | [] => none
  | c :: rest =>
    if closingAt (c :: rest) then some 0
    else (findClosing rest).map (· + 1)

/-- Indices of the newline characters of a character list. -/
def nlIndices (w : Chars) : List Nat :=
  (List.range w.length).filter (fun i => w.getD i ' ' = '\n')

/-- Try the candidate end positions of the opening `---\s*\n` (each is the
index of a `'\n'` inside the whitespace run after `---`, longest consumption
first); for each, look for the earliest closing `\n---\s*\n`. -/
def tryOpenings (t : Chars) : List Nat → Option Chars
  | [] => none
  | i :: more =>
    let body := t.drop (i + 1)
    match findClosing body with
    | some k => some (body.take k)
    | none => tryOpenings t more

/-- Group 1 of `re.match(r'^---\s*\n(.*?)\n---\s*\n', s, re.DOTALL)`, or
`none` when the pattern does not match. -/
def reMatchFrontmatter (s : Chars) : Option Chars :=
  if s.take 3 = ['-', '-', '-'] then
    let t := s.drop 3
    tryOpenings t (nlIndices (t.takeWhile isPySpace)).reverse
  else
    none

/-! ### The line-by-line YAML subset parser of `parse_yaml_frontmatter` -/

/-- A metadata value: a scalar string or a list of strings. -/
inductive YVal where
  | str : Chars → YVal
  | list : List Chars → YVal
deriving DecidableEq, Repr

/-- The metadata mapping, as an insertion-ordered dictionary (Python `dict`):
assigning to an existing key overwrites its value in place. -/
abbrev Dict := List (Chars × YVal)

/-- Python `metadata[key] = v`. -/
def dictSet (k : Chars) (v : YVal) : Dict → Dict
  | [] => [(k, v)]
  | (k', v') :: rest =>
    if k' = k then (k', v) :: rest else (k', v') :: dictSet k v rest

/-- Python `metadata.get(key)`. -/
def dictGet (k : Chars) : Dict → Option YVal
  | [] => none
  | (k', v) :: rest => if k' = k then some v else dictGet k rest

/-- Python `metadata[current_key].append(item)`: raises `KeyError` when the
key is absent and `AttributeError` when its value is a scalar string. -/
def dictAppendItem (k : Chars) (item : Chars) : Dict → Except String Dict
  | [] => .error "KeyError"
  | (k', v) :: rest =>
    if k' = k then
      match v with
      | .list xs => .ok ((k', .list (xs ++ [item])) :: rest)
      | .str _ => .error "AttributeError"
    else
      (dictAppendItem k item rest).map ((k', v) :: ·)

/-- The loop state of `parse_yaml_frontmatter`: the dictionary built so far,
`current_key` (the empty list doubles for Python's `None`, matching the
falsiness test `if current_key:`), and `list_mode`. -/
structure YState where
  dict : Dict
  currentKey : Chars
  listMode : Bool
deriving DecidableEq, Repr

def initYState : YState := ⟨[], [], false⟩

/-- Python `line.split(':', 1)` (the line is only split when it contains a
colon; otherwise the pair `(line, [])` is never used by the caller). -/
def splitFirstColon : Chars → Chars × Chars
  | [] => ([], [])
  | c :: rest =>
    if c = ':' then ([], rest)
    else
      let p := splitFirstColon rest
      (c :: p.1, p.2)

/-- One iteration of the `for line in yaml_content.split('\n')` loop of
`parse_yaml_frontmatter`. -/
def processYamlLine (st : YState) (rawLine : Chars) : Except String YState :=
  let line := pyRstrip rawLine
  if line.contains ':' && !startsWithChar '-' (pyStrip line) then
    let kv := splitFirstColon line
    let key := pyStrip kv.1
    let value := stripQuotes (pyStrip kv.2)
    if startsWithChar '[' value then
      let items := (splitChar ',' (stripSet ['[', ']'] value)).map
        (fun item => stripQuotes (pyStrip item))
      .ok { st with dict := dictSet key (.list items) st.dict }
    else if value ≠ [] then
      .ok { st with dict := dictSet key (.str value) st.dict }
    else
      .ok { dict := dictSet key (.list []) st.dict, currentKey := key, listMode := true }
  else if startsWithChar '-' (pyStrip line) && st.listMode then
    let item := stripQuotes (pyStrip ((pyStrip line).drop 1))
    if st.currentKey ≠ [] then
      (dictAppendItem st.currentKey item st.dict).map (fun d => { st with dict := d })
    else
      .ok st
  else
    .ok st

/-- `parse_yaml_frontmatter(content)`: `.ok none` models the Python `None`
return (no frontmatter block found); `.error e` models an uncaught exception
(possible through `metadata[current_key].append`), which the caller's `try`
block catches. -/
def parse_yaml_frontmatter (content : Chars) : Except String (Option Dict) :=
  match reMatchFrontmatter content with
  | none => .ok none
  | some yaml => do
    let st ← (splitChar '\n' yaml).foldlM processYamlLine initYState
    return some st.dict

/-! ### The ingredient section extractor

`re.search(r'##\s+Ingrédients\s*\n(.*?)(?=\n##|\Z)', content,
re.DOTALL | re.IGNORECASE)` in `extract_ingredients`.  `re.search` scans the
positions of the text left to right; at a match position the heading part is
`##`, at least one whitespace character, the literal `Ingrédients`
(case-insensitively), then `\s*\n` which — greedily — consumes up to the
last newline of the whitespace run that follows (the lazy tail
`(.*?)(?=\n##|\Z)` always succeeds afterwards, so no further backtracking
into `\s*\n` occurs).  Group 1 then stops at the earliest occurrence of a
newline followed by `##`, or at the end of the text. -/

/-- Case folding for the characters of the pattern literal: ASCII letters
plus `É`/`é` (Python's IGNORECASE on the relevant alphabet). -/
def lcChar (c : Char) : Char :=
  if c = 'É' then 'é' else c.toLower

/-- The pattern literal `ingrédients`, lowercase. -/
def ingLit : Chars := ['i', 'n', 'g', 'r', 'é', 'd', 'i', 'e', 'n', 't', 's']

/-- Match a lowercase literal case-insensitively at the head of the text,
returning the rest of the text. -/
def matchLitCI : Chars → Chars → Option Chars
  | [], rest => some rest
  | _ :: _, [] => none
  | l :: ls, c :: cs => if lcChar c = l then matchLitCI ls cs else none

/-- Try to match `##\s+Ingrédients\s*\n` at the head of `cs`; on success
return the text right after the final consumed newline (the start of
group 1). -/
def ingHeadingAt (cs : Chars) : Option Chars :=
  match cs with
  | '#' :: '#' :: rest =>
    if isPySpace (rest.headD 'x') then
      (matchLitCI ingLit (rest.dropWhile isPySpace)).bind (fun rest2 =>
        ((nlIndices (rest2.takeWhile isPySpace)).reverse.head?).map
          (fun j => rest2.drop (j + 1)))
    else none
  | _ => none

/-- `re.search`: try the heading match at each position, left to right. -/
def searchIng : Chars → Option Chars
  | [] => none
  | c :: rest =>
    match ingHeadingAt (c :: rest) with
    | some body => some body
    | none => searchIng rest

/-- The lazy `(.*?)(?=\n##|\Z)`: keep characters up to (excluding) the
earliest newline that is followed by `##`, or the whole text. -/
def takeUntilNlHashHash : Chars → Chars
  | [] => []
  | c :: rest =>
    if c = '\n' && rest.take 2 = ['#', '#'] then []
    else c :: takeUntilNlHashHash rest

/-- One line of the ingredient section: `line.strip()`, keep it when it
starts with a dash and the rest (stripped) is non-empty. -/
def ingredientOfLine (l : Chars) : Option Chars :=
  let t := pyStrip l
  if startsWithChar '-' t then
    let ing := pyStrip (t.drop 1)
    if ing = [] then none else some ing
  else none

/-- `extract_ingredients(content)`. -/
def extract_ingredients (content : Chars) : List Chars :=
  match searchIng content with
  | none => []
  | some body =>
    (splitChar '\n' (takeUntilNlHashHash body)).filterMap ingredientOfLine

/-! ### `generate_recipe_id` -/

/-- The final path component, as `pathlib` computes it: split on `/` and
take the last non-empty part (`.`/`..` handling is out of scope — file names
here never contain them). -/
def pyName (cs : Chars) : Chars :=
  ((splitChar '/' cs).filter (· ≠ ([] : Chars))).getLastD []

/-- `Path(filepath).stem`: the name with its last suffix removed; a suffix
needs a dot that is neither the first nor the last character of the name. -/
def pyStem (cs : Chars) : Chars :=
  let name := pyName cs
  match ((List.range name.length).filter (fun i => name.getD i ' ' = '.')).reverse with
  | [] => name
  | i :: _ => if 0 < i ∧ i < name.length - 1 then name.take i else name

/-! ### Python `int(...)` on the servings value -/

def isDigitCh (c : Char) : Bool := '0' ≤ c && c ≤ '9'

def digitVal (c : Char) : Int := (c.toNat : Int) - 48

/-- Digits of an integer literal, with single underscores allowed between
digits (Python `int(str)` grouping rule). -/
def pyIntCore (acc : Int) : Chars → Option Int
  | [] => some acc
  | c :: rest =>
    if isDigitCh c then pyIntCore (acc * 10 + digitVal c) rest
    else if c = '_' then
      match rest with
      | d :: rest' =>
        if isDigitCh d then pyIntCore (acc * 10 + digitVal d) rest' else none
      | [] => none
    else none

/-- The unsigned digit part: must start with a digit. -/
def pyIntUnsigned (cs : Chars) : Option Int :=
  match cs with
  | c :: _ => if isDigitCh c then pyIntCore 0 cs else none
  | [] => none

/-- Python `int(s)` for a decimal string: surrounding whitespace and one
optional sign are allowed; `none` models the `ValueError`. -/
def pyIntOfStr (cs : Chars) : Option Int :=
  match pyStrip cs with
  | '+' :: rest => pyIntUnsigned rest
  | '-' :: rest => (pyIntUnsigned rest).map (fun n => -n)
  | t => pyIntUnsigned t

/-! ### `parse_recipe_file` -/

/-- One output record (`id`, `title`, `category`, `servings`,
`ingredients`, in the insertion order of the source's dict literal).  The
title is a `YVal` because `metadata.get('title', ...)` can hand back a list
unchanged; the other fields always carry the stated shapes. -/
structure Recipe where
  id : Chars
  title : YVal
  category : Chars
  servings : Int
  ingredients : List Chars
deriving DecidableEq, Repr

/-- The per-file result: `.noFrontmatter` is the warning path (`None`
returned after `if not metadata`, for both a missing block and an empty
mapping), `.error` is the caught-exception path (also `None`), `.ok` carries
the record. -/
inductive Outcome where
  | noFrontmatter
  | error (e : String)
  | ok (r : Recipe)
deriving DecidableEq, Repr

def Outcome.toOption : Outcome → Option Recipe
  | .ok r => some r
  | _ => none

/-- The category expression of the source's dict literal:
`metadata.get('categories', ['autre'])[0]` when the value is a list (raising
`IndexError` on an empty list), else `metadata.get('categories', 'autre')`. -/
def categoryOf (md : Dict) : Except String Chars :=
  match dictGet "categories".data md with
  | some (.list items) =>
    match items with
    | [] => .error "IndexError"
    | c :: _ => .ok c
  | some (.str s) => .ok s
  | none => .ok "autre".data

/-- `int(metadata.get('servings', 4))`: the default is already an `int`; a
scalar goes through `int(str)` (`ValueError` when non-numeric); a list value
raises `TypeError`. -/
def servingsOf (md : Dict) : Except String Int :=
  match dictGet "servings".data md with
  | none => .ok 4
  | some (.str s) =>
    match pyIntOfStr s with
    | some n => .ok n
    | none => .error "ValueError"
  | some (.list _) => .error "TypeError"

/-- `parse_recipe_file`, after the file has been read: parse the
frontmatter, fall to the warning path when it is absent or empty, extract
the ingredients, and build the record; the fields of the dict literal are
evaluated in source order, so a category failure surfaces before a servings
failure. -/
def recipeOutcome (filepath : Chars) (content : Chars) : Outcome :=
  match parse_yaml_frontmatter content with
  | .error e => .error e
  | .ok none => .noFrontmatter
  | .ok (some md) =>
    if md = [] then .noFrontmatter
    else
      match categoryOf md with
      | .error e => .error e
      | .ok cat =>
        match servingsOf md with
        | .error e => .error e
        | .ok sv =>
          .ok { id := pyStem filepath
                title := (dictGet "title".data md).getD (.str "Sans titre".data)
                category := cat
                servings := sv
                ingredients := extract_ingredients content }

/-! ### `generate_recipes_json`: discovery, per-file processing, output

A directory state is the existence flag tested by `recipes_path.exists()`
plus the (name, content) pairs of its files, listed in the arbitrary order
the file system enumerates them (`glob` gives no ordering guarantee, which
is why the source sorts). -/

structure Dir where
  present : Bool
  files : List (Chars × Chars)
deriving DecidableEq, Repr

/-- Opening a file of the directory by name (first match). -/
def readFile (d : Dir) (name : Chars) : Option Chars :=
  (d.files.find? (fun f => f.1 = name)).map (·.2)

/-- `glob('*.qmd')`: the name ends with `.qmd`. -/
def isQmdName (n : Chars) : Bool := n.reverse.take 4 = ['d', 'm', 'q', '.']

def templateName : Chars := "_template.qmd".data

/-- Lexicographic comparison of names by code point — the order Python's
`sorted` applies to the paths (they share the directory prefix). -/
def charsLe : Chars → Chars → Bool
  | [], _ => true
  | _ :: _, [] => false
  | a :: as, b :: bs => if a = b then charsLe as bs else decide (a < b)

/-- The name order as a decidable relation. -/
def nameOrder (a b : Chars) : Prop := charsLe a b = true

instance : DecidableRel nameOrder := fun a b =>
  inferInstanceAs (Decidable (charsLe a b = true))

/-- `sorted(...)`: with the total, antisymmetric, transitive `nameOrder`,
every sorting algorithm returns the unique sorted rearrangement, so
insertion sort models Python's sort. -/
def sortNames (l : List Chars) : List Chars := List.insertionSort nameOrder l

/-- The discovery step: `.qmd` files, minus `_template.qmd`, sorted. -/
def discoveredNames (d : Dir) : List Chars :=
  sortNames ((d.files.map Prod.fst).filter
    (fun n => isQmdName n && n ≠ templateName))

/-- One loop iteration of `generate_recipes_json`: open the file (a read
failure is an exception caught by `parse_recipe_file`'s `try`) and run
`parse_recipe_file` on its text. -/
def processFile (d : Dir) (name : Chars) : Outcome :=
  match readFile d name with
  | none => .error "IOError"
  | some content => recipeOutcome name content

/-- The record collection of a run: `none` when the input directory does not
exist (the early `return`, before any output is written); otherwise the
records of the per-file successes, in discovery order. -/
def generateRecords (d : Dir) : Option (List Recipe) :=
  if d.present then
    some ((discoveredNames d).filterMap (fun n => (processFile d n).toOption))
  else none

/-! ### The serialized output

`json.dump(recipes, f, ensure_ascii=False, indent=2)`: with
`ensure_ascii=False` only `"` `\` and the control characters are escaped
(non-ASCII characters are written literally); `indent=2` produces the
multi-line layout built below; dict keys keep insertion order. -/

def hexDigit (n : Nat) : Char :=
  if n < 10 then Char.ofNat (48 + n) else Char.ofNat (87 + n)

def jsonEscapeChar (c : Char) : Chars :=
  if c = '"' then ['\\', '"']
  else if c = '\\' then ['\\', '\\']
  else if c = '\n' then ['\\', 'n']
  else if c = '\t' then ['\\', 't']
  else if c = '\r' then ['\\', 'r']
  else if c = '\x08' then ['\\', 'b']
  else if c = '\x0c' then ['\\', 'f']
  else if c.toNat < 32 then
    ['\\', 'u', '0', '0', hexDigit (c.toNat / 16), hexDigit (c.toNat % 16)]
  else [c]

def jsonStr (cs : Chars) : Chars :=
  '"' :: (cs.map jsonEscapeChar).flatten ++ ['"']

/-- `2 * k` spaces of indentation. -/
def ind (k : Nat) : Chars := List.replicate (2 * k) ' '

/-- A string-or-list value at nesting level `level`. -/
def jsonYVal (level : Nat) : YVal → Chars
  | .str s => jsonStr s
  | .list xs =>
    match xs with
    | [] => ['[', ']']
    | _ =>
      ['[', '\n'] ++
        List.intercalate [',', '\n'] (xs.map (fun x => ind (level + 1) ++ jsonStr x)) ++
        '\n' :: ind level ++ [']']

/-- One record object at nesting level `level`. -/
def jsonRecipe (level : Nat) (r : Recipe) : Chars :=
  '\x7b' :: '\n' ::
    List.intercalate [',', '\n']
      [ind (level + 1) ++ jsonStr "id".data ++ ':' :: ' ' :: jsonStr r.id,
       ind (level + 1) ++ jsonStr "title".data ++ ':' :: ' ' :: jsonYVal (level + 1) r.title,
       ind (level + 1) ++ jsonStr "category".data ++ ':' :: ' ' :: jsonStr r.category,
       ind (level + 1) ++ jsonStr "servings".data ++ ':' :: ' ' :: (toString r.servings).data,
       ind (level + 1) ++ jsonStr "ingredients".data ++ ':' :: ' ' ::
         jsonYVal (level + 1) (.list r.ingredients)] ++
    '\n' :: ind level ++ ['\x7d']

/-- The whole output document. -/
def jsonRecipes : List Recipe → Chars
  | [] => ['[', ']']
  | rs =>
    ['[', '\n'] ++
      List.intercalate [',', '\n'] (rs.map (fun r => ind 1 ++ jsonRecipe 1 r)) ++
      ['\n', ']']

/-- The bytes written to the output file, `none` when the run terminates on
the missing input directory and writes nothing. -/
def generate_recipes_json (d : Dir) : Option Chars :=
  (generateRecords d).map jsonRecipes

/-! ### Order properties of the name comparison -/

theorem charsLe_total : ∀ a b : Chars, charsLe a b = true ∨ charsLe b a = true := by
  intro a
  induction a with
  | nil => intro b; left; rfl
  | cons x xs ih =>
    intro b
    cases b with
    | nil => right; rfl
    | cons y ys =>
      by_cases hxy : x = y
      · subst hxy
        rcases ih ys with h | h
        · left; simpa [charsLe] using h
        · right; simpa [charsLe] using h
      · rcases lt_trichotomy x y with h | h | h
        · left; simp [charsLe, hxy, h]
        · exact absurd h hxy
        · right; simp [charsLe, Ne.symm hxy, h]

theorem charsLe_trans : ∀ a b c : Chars,
    charsLe a b = true → charsLe b c = true → charsLe a c = true := by
  intro a
  induction a with
  | nil => intro b c _ _; rfl
  | cons x xs ih =>
    intro b c hab hbc
    cases b with
    | nil => simp [charsLe] at hab
    | cons y ys =>
      cases c with
      | nil => simp [charsLe] at hbc
      | cons z zs =>
        by_cases hxy : x = y <;> by_cases hyz : y = z
        · subst hxy; subst hyz
          simp only [charsLe, if_pos rfl] at hab hbc ⊢
          exact ih ys zs hab hbc
        · subst hxy
          simp only [charsLe, if_pos rfl] at hab
          simp only [charsLe, if_neg hyz] at hbc
          simp [charsLe, hyz, hbc]
        · subst hyz
          simp only [charsLe, if_neg hxy] at hab
          simp [charsLe, hxy, hab]
        · simp only [charsLe, if_neg hxy] at hab
          simp only [charsLe, if_neg hyz] at hbc
          have hlt : x < z := lt_trans (of_decide_eq_true hab) (of_decide_eq_true hbc)
          have hxz : x ≠ z := ne_of_lt hlt
          simp [charsLe, hxz, hlt]

theorem charsLe_antisymm : ∀ a b : Chars,
    charsLe a b = true → charsLe b a = true → a = b := by
  intro a
  induction a with
  | nil =>
    intro b _ hba
    cases b with
    | nil => rfl
    | cons y ys => simp [charsLe] at hba
  | cons x xs ih =>
    intro b hab hba
    cases b with
    | nil => simp [charsLe] at hab
    | cons y ys =>
      by_cases hxy : x = y
      · subst hxy
        simp only [charsLe, if_pos rfl] at hab hba
        exact congrArg (x :: ·) (ih ys hab hba)
      · simp only [charsLe, if_neg hxy, if_neg (Ne.symm hxy)] at hab hba
        exact absurd (lt_trans (of_decide_eq_true hab) (of_decide_eq_true hba))
          (lt_irrefl x)

instance : IsTotal Chars nameOrder := ⟨charsLe_total⟩

instance : IsTrans Chars nameOrder := ⟨charsLe_trans⟩

instance : IsAntisymm Chars nameOrder := ⟨charsLe_antisymm⟩

theorem sortNames_sorted (l : List Chars) : List.Sorted nameOrder (sortNames l) :=
  List.sorted_insertionSort nameOrder l

theorem sortNames_perm (l : List Chars) : (sortNames l).Perm l :=
  List.perm_insertionSort nameOrder l

theorem sortNames_eq_of_perm {l₁ l₂ : List Chars} (h : l₁.Perm l₂) :
    sortNames l₁ = sortNames l₂ :=
  List.eq_of_perm_of_sorted ((sortNames_perm l₁).trans (h.trans (sortNames_perm l₂).symm))
    (sortNames_sorted l₁) (sortNames_sorted l₂)

/-! ## The claims -/

instance {ε α : Type} [DecidableEq ε] [DecidableEq α] : DecidableEq (Except ε α) :=
  fun x y =>
    match x, y with
    | .error a, .error b => decidable_of_iff (a = b) (by simp)
    | .error _, .ok _ => isFalse (by simp)
    | .ok _, .error _ => isFalse (by simp)
    | .ok a, .ok b => decidable_of_iff (a = b) (by simp)

/-- The round-trip document of the specification: header `title: "Soup"`,
`categories: [dinner, easy]`, `servings: 2`, body with an `## Ingrédients`
heading and the items `2 carrots`, `1 onion`. -/
def soupContent : Chars :=
  "---\ntitle: \"Soup\"\ncategories: [dinner, easy]\nservings: 2\n---\n\n## Ingrédients\n- 2 carrots\n- 1 onion\n".data

/-- Claim C1: for every file name, the record builder turns the round-trip
document into exactly the record with id the file stem, title `Soup`,
category `dinner` (first element of the category list), servings `2`, and
ingredients `["2 carrots", "1 onion"]`. -/
theorem claim_C1 (fname : Chars) :
    recipeOutcome fname soupContent =
      .ok { id := pyStem fname
            title := .str "Soup".data
            category := "dinner".data
            servings := 2
            ingredients := ["2 carrots".data, "1 onion".data] } := by
  rfl

/-- Claim C6: a document with a parseable, non-empty header that omits the
`title`, `categories` and `servings` keys yields the record with the
placeholder title `Sans titre`, the placeholder category `autre`, and
servings `4`. -/
theorem claim_C6 (name content : Chars) (md : Dict)
    (h1 : parse_yaml_frontmatter content = .ok (some md)) (hne : md ≠ [])
    (ht : dictGet "title".data md = none)
    (hc : dictGet "categories".data md = none)
    (hs : dictGet "servings".data md = none) :
    recipeOutcome name content =
      .ok { id := pyStem name
            title := .str "Sans titre".data
            category := "autre".data
            servings := 4
            ingredients := extract_ingredients content } := by
  unfold recipeOutcome
  rw [h1]
  simp [hne, categoryOf, hc, servingsOf, hs, ht]

/-- Witness for C6 at a concrete document whose header has only an
`author` key. -/
theorem claim_C6_witness :
    recipeOutcome "w.qmd".data "---\nauthor: x\n---\n".data =
      .ok { id := pyStem "w.qmd".data
            title := .str "Sans titre".data
            category := "autre".data
            servings := 4
            ingredients := extract_ingredients "---\nauthor: x\n---\n".data } :=
  claim_C6 "w.qmd".data "---\nauthor: x\n---\n".data
    [("author".data, .str "x".data)]
    (by decide) (by decide) (by decide) (by decide) (by decide)

/-- Claim C7: when the input directory does not exist, the run terminates
with no output bytes written and no record collection built. -/
theorem claim_C7 (d : Dir) (h : d.present = false) :
    generate_recipes_json d = none ∧ generateRecords d = none := by
  refine ⟨?_, ?_⟩ <;> simp [generate_recipes_json, generateRecords, h]

/-- Witness for C7 at a concrete absent directory. -/
theorem claim_C7_witness :
    generate_recipes_json ⟨false, []⟩ = none ∧ generateRecords ⟨false, []⟩ = none :=
  claim_C7 ⟨false, []⟩ rfl

/-- Claim C9: a document whose header markers are present but whose block
parses to an empty mapping takes exactly the missing-header warning path
and produces no record. -/
theorem claim_C9 (name content : Chars)
    (h : parse_yaml_frontmatter content = .ok (some [])) :
    recipeOutcome name content = .noFrontmatter := by
  unfold recipeOutcome
  rw [h]
  rfl

/-- Witness for C9: a document whose delimited block is a single blank
line. -/
theorem claim_C9_witness :
    recipeOutcome "e.qmd".data "---\n\n---\nbody".data = .noFrontmatter :=
  claim_C9 "e.qmd".data "---\n\n---\nbody".data (by decide)

/-- Claim C10: a parseable header mapping `categories` to an empty list
(block-list mode with zero items) fails the whole document with the
`IndexError` of `[0]`; the record builder does not fall back to the
`autre` default. -/
theorem claim_C10 (name content : Chars) (md : Dict)
    (h1 : parse_yaml_frontmatter content = .ok (some md))
    (hc : dictGet "categories".data md = some (.list [])) :
    recipeOutcome name content = .error "IndexError" := by
  have hne : md ≠ [] := by
    intro he
    rw [he] at hc
    simp [dictGet] at hc
  unfold recipeOutcome
  rw [h1]
  simp [hne, categoryOf, hc]

/-- Witness for C10 at a concrete document with an itemless block list. -/
theorem claim_C10_witness :
    recipeOutcome "c.qmd".data "---\ntitle: x\ncategories:\n---\n".data =
      .error "IndexError" :=
  claim_C10 "c.qmd".data "---\ntitle: x\ncategories:\n---\n".data
    [("title".data, .str "x".data), ("categories".data, .list [])]
    (by decide) (by decide)

/-- Claim C2: a document whose parseable header declares `servings` as a
string that `int(...)` rejects produces no record — the per-file error path
is taken — and every run still completes: the record collection is built and
every other discovered document whose parse succeeds still contributes its
record. -/
theorem claim_C2 (name content : Chars) (md : Dict) (s : Chars)
    (h1 : parse_yaml_frontmatter content = .ok (some md))
    (hs : dictGet "servings".data md = some (.str s))
    (hnum : pyIntOfStr s = none) :
    (∃ e, recipeOutcome name content = .error e) ∧
    ∀ d : Dir, d.present = true →
      ∃ rs, generateRecords d = some rs ∧
        ∀ n c r, n ∈ discoveredNames d → readFile d n = some c →
          recipeOutcome n c = .ok r → r ∈ rs := by
  constructor
  · have hne : md ≠ [] := by
      intro he
      rw [he] at hs
      simp [dictGet] at hs
    have hserv : servingsOf md = .error "ValueError" := by
      simp [servingsOf, hs, hnum]
    unfold recipeOutcome
    rw [h1]
    cases hcat : categoryOf md with
    | error e => exact ⟨e, by simp [hne, hcat]⟩
    | ok cat => exact ⟨"ValueError", by simp [hne, hcat, hserv]⟩
  · intro d hd
    refine ⟨(discoveredNames d).filterMap (fun n => (processFile d n).toOption),
      by simp [generateRecords, hd], ?_⟩
    intro n c r hn hread hok
    exact List.mem_filterMap.mpr
      ⟨n, hn, by simp [processFile, hread, hok, Outcome.toOption]⟩

/-- Witness for C2 at a concrete document with `servings: abc`. -/
theorem claim_C2_witness :
    (∃ e, recipeOutcome "s.qmd".data "---\ntitle: T\nservings: abc\n---\n".data = .error e) ∧
    ∀ d : Dir, d.present = true →
      ∃ rs, generateRecords d = some rs ∧
        ∀ n c r, n ∈ discoveredNames d → readFile d n = some c →
          recipeOutcome n c = .ok r → r ∈ rs :=
  claim_C2 "s.qmd".data "---\ntitle: T\nservings: abc\n---\n".data
    [("title".data, .str "T".data), ("servings".data, .str "abc".data)]
    "abc".data (by decide) (by decide) (by decide)

/-- Claim C3: on a run over an existing directory, the record collection is
built, every record in it comes from a discovered document whose header
block parsed to a non-empty mapping, and every discovered document for
which the header parser signals absence takes the warning path and
contributes no record. -/
theorem claim_C3 (d : Dir) (hp : d.present = true) :
    ∃ rs, generateRecords d = some rs ∧
      (∀ r, r ∈ rs → ∃ n c md, n ∈ discoveredNames d ∧ readFile d n = some c ∧
        parse_yaml_frontmatter c = .ok (some md) ∧ md ≠ [] ∧
        processFile d n = .ok r) ∧
      (∀ n c, n ∈ discoveredNames d → readFile d n = some c →
        parse_yaml_frontmatter c = .ok none →
        processFile d n = .noFrontmatter ∧ (processFile d n).toOption = none) := by
  refine ⟨(discoveredNames d).filterMap (fun n => (processFile d n).toOption),
    by simp [generateRecords, hp], ?_, ?_⟩
  · intro r hr
    obtain ⟨n, hn, hsome⟩ := List.mem_filterMap.mp hr
    have hproc : processFile d n = .ok r := by
      cases hpn : processFile d n <;> rw [hpn] at hsome <;>
        simp [Outcome.toOption] at hsome
      rw [hsome]
    cases hread : readFile d n with
    | none => rw [processFile, hread] at hproc; cases hproc
    | some c =>
      have hro : recipeOutcome n c = .ok r := by
        rw [processFile, hread] at hproc
        exact hproc
      cases hpar : parse_yaml_frontmatter c with
      | error e => rw [recipeOutcome, hpar] at hro; cases hro
      | ok omd =>
        cases omd with
        | none => rw [recipeOutcome, hpar] at hro; cases hro
        | some md =>
          have hmd : md ≠ [] := by
            intro he
            subst he
            rw [recipeOutcome, hpar] at hro
            simp at hro
          exact ⟨n, c, md, hn, hread, hpar, hmd, hproc⟩
  · intro n c hn hread hpar
    have h : processFile d n = .noFrontmatter := by
      simp [processFile, hread, recipeOutcome, hpar]
    exact ⟨h, by rw [h]; rfl⟩

/-- Witness for C3 at a concrete two-file directory (one document with a
header, one without). -/
theorem claim_C3_witness :
    ∃ rs, generateRecords ⟨true, [("a.qmd".data, soupContent), ("n.qmd".data, "no header".data)]⟩ = some rs ∧
      (∀ r, r ∈ rs → ∃ n c md,
        n ∈ discoveredNames ⟨true, [("a.qmd".data, soupContent), ("n.qmd".data, "no header".data)]⟩ ∧
        readFile ⟨true, [("a.qmd".data, soupContent), ("n.qmd".data, "no header".data)]⟩ n = some c ∧
        parse_yaml_frontmatter c = .ok (some md) ∧ md ≠ [] ∧
        processFile ⟨true, [("a.qmd".data, soupContent), ("n.qmd".data, "no header".data)]⟩ n = .ok r) ∧
      (∀ n c, n ∈ discoveredNames ⟨true, [("a.qmd".data, soupContent), ("n.qmd".data, "no header".data)]⟩ →
        readFile ⟨true, [("a.qmd".data, soupContent), ("n.qmd".data, "no header".data)]⟩ n = some c →
        parse_yaml_frontmatter c = .ok none →
        processFile ⟨true, [("a.qmd".data, soupContent), ("n.qmd".data, "no header".data)]⟩ n = .noFrontmatter ∧
        (processFile ⟨true, [("a.qmd".data, soupContent), ("n.qmd".data, "no header".data)]⟩ n).toOption = none) :=
  claim_C3 ⟨true, [("a.qmd".data, soupContent), ("n.qmd".data, "no header".data)]⟩ rfl

/-- Claim C5: for a directory holding `b.qmd`, `a.qmd` and `_template.qmd`
whose first two documents each produce a record, the output lists `a.qmd`'s
record before `b.qmd`'s and holds nothing from `_template.qmd`; in general
the discovered names of any directory are sorted and never include the
template. -/
theorem claim_C5 (ca cb ct : Chars) (ra rb : Recipe)
    (ha : recipeOutcome "a.qmd".data ca = .ok ra)
    (hb : recipeOutcome "b.qmd".data cb = .ok rb) :
    generateRecords
        ⟨true, [("b.qmd".data, cb), ("a.qmd".data, ca), ("_template.qmd".data, ct)]⟩
      = some [ra, rb] ∧
    ∀ d : Dir, List.Sorted nameOrder (discoveredNames d) ∧
      templateName ∉ discoveredNames d := by
  constructor
  · have hA : (processFile
        ⟨true, [("b.qmd".data, cb), ("a.qmd".data, ca), ("_template.qmd".data, ct)]⟩
        "a.qmd".data).toOption = some ra := by
      rw [show processFile
          ⟨true, [("b.qmd".data, cb), ("a.qmd".data, ca), ("_template.qmd".data, ct)]⟩
          "a.qmd".data = recipeOutcome "a.qmd".data ca from rfl, ha]
      rfl
    have hB : (processFile
        ⟨true, [("b.qmd".data, cb), ("a.qmd".data, ca), ("_template.qmd".data, ct)]⟩
        "b.qmd".data).toOption = some rb := by
      rw [show processFile
          ⟨true, [("b.qmd".data, cb), ("a.qmd".data, ca), ("_template.qmd".data, ct)]⟩
          "b.qmd".data = recipeOutcome "b.qmd".data cb from rfl, hb]
      rfl
    refine Eq.trans (?_ :
        generateRecords
          ⟨true, [("b.qmd".data, cb), ("a.qmd".data, ca), ("_template.qmd".data, ct)]⟩
        = some (List.filterMap
            (fun n => (processFile
              ⟨true, [("b.qmd".data, cb), ("a.qmd".data, ca), ("_template.qmd".data, ct)]⟩
              n).toOption)
            ["a.qmd".data, "b.qmd".data])) ?_
    · rfl
    · simp [List.filterMap_cons, hA, hB]
  · intro d
    refine ⟨sortNames_sorted _, ?_⟩
    intro hmem
    have h2 := List.mem_filter.mp ((sortNames_perm _).subset hmem)
    simp at h2

/-- Witness for C5 with both recipe documents set to the round-trip
document. -/
theorem claim_C5_witness :
    generateRecords
        ⟨true, [("b.qmd".data, soupContent), ("a.qmd".data, soupContent),
                ("_template.qmd".data, [])]⟩
      = some
        [{ id := "a".data, title := .str "Soup".data, category := "dinner".data,
           servings := 2, ingredients := ["2 carrots".data, "1 onion".data] },
         { id := "b".data, title := .str "Soup".data, category := "dinner".data,
           servings := 2, ingredients := ["2 carrots".data, "1 onion".data] }] ∧
    ∀ d : Dir, List.Sorted nameOrder (discoveredNames d) ∧
      templateName ∉ discoveredNames d :=
  claim_C5 soupContent soupContent [] _ _ rfl rfl

/-- With no duplicate file names, opening a file by name does not depend on
the order the directory lists its entries. -/
theorem find?_eq_of_perm {l₁ l₂ : List (Chars × Chars)} (h : l₁.Perm l₂)
    (hnd : (l₁.map Prod.fst).Nodup) (name : Chars) :
    l₁.find? (fun f => f.1 = name) = l₂.find? (fun f => f.1 = name) := by
  induction h with
  | nil => rfl
  | cons x h ih =>
    by_cases hx : x.1 = name
    · simp [List.find?_cons_of_pos, hx]
    · have hnd' : _ := (List.nodup_cons.mp hnd).2
      simp only [List.find?_cons_of_neg, hx, decide_eq_true_eq, not_false_eq_true]
      exact ih hnd'
  | swap x y l =>
    have hxy : y.1 ≠ x.1 := by
      have := (List.nodup_cons.mp hnd).1
      intro he
      exact this (by simp [he])
    by_cases hx : x.1 = name <;> by_cases hy : y.1 = name
    · exact absurd (hy.trans hx.symm) hxy
    · simp [List.find?_cons_of_pos, List.find?_cons_of_neg, hx, hy]
    · simp [List.find?_cons_of_pos, List.find?_cons_of_neg, hx, hy]
    · simp [List.find?_cons_of_neg, hx, hy]
  | trans h₁ h₂ ih₁ ih₂ =>
    exact (ih₁ hnd).trans (ih₂ (((h₁.map Prod.fst).nodup_iff).mp hnd))

/-- Claim C8: for a fixed directory state (same files, possibly enumerated
in a different order, with no duplicate names — as on a real file system),
two runs produce byte-identical JSON output and identical record
collections: the pipeline is a deterministic function of the files' names
and contents. -/
theorem claim_C8 (d₁ d₂ : Dir) (hp : d₁.present = d₂.present)
    (hperm : d₁.files.Perm d₂.files)
    (hnd : (d₁.files.map Prod.fst).Nodup) :
    generate_recipes_json d₁ = generate_recipes_json d₂ ∧
    generateRecords d₁ = generateRecords d₂ := by
  have hnames : discoveredNames d₁ = discoveredNames d₂ := by
    unfold discoveredNames
    exact sortNames_eq_of_perm ((hperm.map Prod.fst).filter _)
  have hread : ∀ n, readFile d₁ n = readFile d₂ n := by
    intro n
    unfold readFile
    rw [find?_eq_of_perm hperm hnd n]
  have hpf : ∀ n, processFile d₁ n = processFile d₂ n := by
    intro n
    unfold processFile
    rw [hread n]
  have hrec : generateRecords d₁ = generateRecords d₂ := by
    unfold generateRecords
    rw [hp, hnames]
    simp only [hpf]
  exact ⟨by unfold generate_recipes_json; rw [hrec], hrec⟩

/-- Witness for C8: the same two files listed in the two possible orders. -/
theorem claim_C8_witness :
    generate_recipes_json ⟨true, [("a.qmd".data, soupContent), ("b.qmd".data, [])]⟩ =
      generate_recipes_json ⟨true, [("b.qmd".data, []), ("a.qmd".data, soupContent)]⟩ ∧
    generateRecords ⟨true, [("a.qmd".data, soupContent), ("b.qmd".data, [])]⟩ =
      generateRecords ⟨true, [("b.qmd".data, []), ("a.qmd".data, soupContent)]⟩ :=
  claim_C8 ⟨true, [("a.qmd".data, soupContent), ("b.qmd".data, [])]⟩
    ⟨true, [("b.qmd".data, []), ("a.qmd".data, soupContent)]⟩
    rfl (List.Perm.swap _ _ _) (by decide)

/-! ### Claim C4: the termination rule of the ingredient section

The document used against the claim: the dash item `sel` sits after the
deeper sub-heading `### Note`, inside what the claim regards as the
ingredient section. -/

def c4Doc : Chars := "## Ingrédients\n- 2 carrots\n### Note\n- sel\n## Autre\n- pepper\n".data

/-- Counterexample to claim C4: the extractor stops at the deeper
sub-heading `### Note`, so the dash item `sel` that follows it is *not*
collected — only `2 carrots` is. -/
theorem claim_C4_counterexample :
    extract_ingredients c4Doc = ["2 carrots".data] ∧
    "sel".data ∉ extract_ingredients c4Doc := by
  refine ⟨by decide, by decide⟩

/-! The amended general statement.  A document is built as the heading line
`## Ingrédients`, a non-empty block of "plain" lines (no newline inside, a
non-whitespace first character, not starting with the two-character marker
`##` — single-`#` lines are allowed), and then either the end of the
document or a terminator line starting with `##` (of arbitrary tail, so
both `## same-depth` and `### deeper` terminators are covered).  The
extractor collects exactly the dash items of the plain block. -/

def joinLines : List Chars → Chars
  | [] => []
  | [l] => l
  | l :: ls => l ++ '\n' :: joinLines ls

/-- A body line without newline, with a non-whitespace first character, and
not starting with the `##` marker. -/
def plainLine (l : Chars) : Prop :=
  l ≠ [] ∧ isPySpace (l.headD ' ') = false ∧ '\n' ∉ l ∧ l.take 2 ≠ ['#', '#']

instance (l : Chars) : Decidable (plainLine l) := by
  unfold plainLine
  infer_instance

def ingHeader : Chars := "## Ingrédients\n".data

theorem ingHeadingAt_start (c : Char) (cs : Chars) (hc : isPySpace c = false) :
    ingHeadingAt (ingHeader ++ c :: cs) = some (c :: cs) := by
  have h0 : ingHeader ++ c :: cs
      = '#' :: '#' :: (' ' :: 'I' :: 'n' :: 'g' :: 'r' :: 'é' :: 'd' :: 'i' :: 'e' ::
        'n' :: 't' :: 's' :: '\n' :: c :: cs) := rfl
  rw [h0]
  simp only [ingHeadingAt]
  rw [show (' ' :: 'I' :: 'n' :: 'g' :: 'r' :: 'é' :: 'd' :: 'i' :: 'e' ::
      'n' :: 't' :: 's' :: '\n' :: c :: cs).headD 'x' = ' ' from rfl]
  simp only [show isPySpace ' ' = true from rfl, if_true]
  rw [show matchLitCI ingLit (List.dropWhile isPySpace (' ' :: 'I' :: 'n' :: 'g' :: 'r' ::
      'é' :: 'd' :: 'i' :: 'e' :: 'n' :: 't' :: 's' :: '\n' :: c :: cs))
      = some ('\n' :: c :: cs) from rfl]
  have ht : List.takeWhile isPySpace ('\n' :: c :: cs) = ['\n'] := by
    rw [List.takeWhile_cons, List.takeWhile_cons]
    simp [show isPySpace '\n' = true from rfl, hc]
  simp only [Option.some_bind, ht]
  rfl

theorem searchIng_start (c : Char) (cs : Chars) (hc : isPySpace c = false) :
    searchIng (ingHeader ++ c :: cs) = some (c :: cs) := by
  have h0 : ingHeader ++ c :: cs
      = '#' :: '#' :: (' ' :: 'I' :: 'n' :: 'g' :: 'r' :: 'é' :: 'd' :: 'i' :: 'e' ::
        'n' :: 't' :: 's' :: '\n' :: c :: cs) := rfl
  rw [h0]
  simp only [searchIng]
  rw [← h0, ingHeadingAt_start c cs hc]

theorem takeUntil_cons_ne (a : Char) (t : Chars) (ha : a ≠ '\n') :
    takeUntilNlHashHash (a :: t) = a :: takeUntilNlHashHash t := by
  simp [takeUntilNlHashHash, ha]

theorem takeUntil_append (l cs : Chars) (h : '\n' ∉ l) :
    takeUntilNlHashHash (l ++ cs) = l ++ takeUntilNlHashHash cs := by
  induction l with
  | nil => rfl
  | cons a l ih =>
    have ha : a ≠ '\n' := by
      intro he
      exact h (he ▸ List.mem_cons_self a l)
    have h' : '\n' ∉ l := fun hm => h (List.mem_cons_of_mem a hm)
    rw [List.cons_append, takeUntil_cons_ne a _ ha, ih h', List.cons_append]

theorem takeUntil_nl_no (cs : Chars) (h : cs.take 2 ≠ ['#', '#']) :
    takeUntilNlHashHash ('\n' :: cs) = '\n' :: takeUntilNlHashHash cs := by
  simp only [takeUntilNlHashHash]
  rw [if_neg]
  simp [h]

theorem takeUntil_nl_term (rest : Chars) :
    takeUntilNlHashHash ('\n' :: '#' :: '#' :: rest) = [] := rfl

/-- The first two characters of a joined non-empty block followed by `t`
are never `##`, provided the first line is plain and `t` is empty or starts
with a newline. -/
theorem take2_joinLines (l : Chars) (m : List Chars) (t : Chars)
    (h1 : l ≠ []) (h2 : l.take 2 ≠ ['#', '#'])
    (h4 : t = [] ∨ t.headD ' ' = '\n') :
    (joinLines (l :: m) ++ t).take 2 ≠ ['#', '#'] := by
  match l, h1 with
  | [a], _ =>
    match m with
    | [] =>
      rcases h4 with h4 | h4
      · subst h4
        simp [joinLines]
      · match t with
        | [] => simp [joinLines]
        | x :: ts =>
          have hx : x = '\n' := by simpa using h4
          subst hx
          simp [joinLines]
    | l₂ :: m' =>
      simp [joinLines]
  | a :: b :: ls, _ =>
    have hab : (a :: b :: ls).take 2 = [a, b] := rfl
    rw [hab] at h2
    match m with
    | [] => simpa [joinLines] using h2
    | l₂ :: m' => simpa [joinLines] using h2

theorem takeUntil_joinLines_term (mid : List Chars) (rest : Chars) (hne : mid ≠ [])
    (hclean : ∀ l ∈ mid, plainLine l) :
    takeUntilNlHashHash (joinLines mid ++ '\n' :: '#' :: '#' :: rest) = joinLines mid := by
  induction mid with
  | nil => exact absurd rfl hne
  | cons l mid ih =>
    have hl := hclean l (List.mem_cons_self l mid)
    match mid with
    | [] =>
      rw [show joinLines [l] = l from rfl, takeUntil_append l _ hl.2.2.1,
        takeUntil_nl_term, List.append_nil]
    | l₂ :: mid' =>
      have hl₂ := hclean l₂ (List.mem_cons_of_mem l (List.mem_cons_self l₂ mid'))
      have hjoin : joinLines (l :: l₂ :: mid') = l ++ '\n' :: joinLines (l₂ :: mid') := rfl
      rw [hjoin, List.append_assoc, List.cons_append,
        takeUntil_append l _ hl.2.2.1,
        takeUntil_nl_no _ (take2_joinLines l₂ mid' ('\n' :: '#' :: '#' :: rest)
          hl₂.1 hl₂.2.2.2 (Or.inr rfl)),
        ih (by simp) (fun x hx => hclean x (List.mem_cons_of_mem l hx))]

theorem takeUntil_joinLines_eod (mid : List Chars)
    (hclean : ∀ l ∈ mid, plainLine l) :
    takeUntilNlHashHash (joinLines mid) = joinLines mid := by
  induction mid with
  | nil => rfl
  | cons l mid ih =>
    have hl := hclean l (List.mem_cons_self l mid)
    match mid with
    | [] =>
      rw [show joinLines [l] = l from rfl, ← List.append_nil l,
        takeUntil_append l [] hl.2.2.1]
      rfl
    | l₂ :: mid' =>
      have hl₂ := hclean l₂ (List.mem_cons_of_mem l (List.mem_cons_self l₂ mid'))
      have hjoin : joinLines (l :: l₂ :: mid') = l ++ '\n' :: joinLines (l₂ :: mid') := rfl
      have h2 : (joinLines (l₂ :: mid')).take 2 ≠ ['#', '#'] := by
        have := take2_joinLines l₂ mid' [] hl₂.1 hl₂.2.2.2 (Or.inl rfl)
        rwa [List.append_nil] at this
      rw [hjoin, takeUntil_append l _ hl.2.2.1, takeUntil_nl_no _ h2,
        ih (fun x hx => hclean x (List.mem_cons_of_mem l hx))]

theorem splitChar_no_sep (l : Chars) (h : '\n' ∉ l) : splitChar '\n' l = [l] := by
  induction l with
  | nil => rfl
  | cons a l ih =>
    have ha : a ≠ '\n' := fun he => h (he ▸ List.mem_cons_self a l)
    have h' : '\n' ∉ l := fun hm => h (List.mem_cons_of_mem a hm)
    simp only [splitChar, ih h', if_neg ha]

theorem splitChar_cons_sep (l rest : Chars) (h : '\n' ∉ l) :
    splitChar '\n' (l ++ '\n' :: rest) = l :: splitChar '\n' rest := by
  induction l with
  | nil => simp [splitChar]
  | cons a l ih =>
    have ha : a ≠ '\n' := fun he => h (he ▸ List.mem_cons_self a l)
    have h' : '\n' ∉ l := fun hm => h (List.mem_cons_of_mem a hm)
    simp only [List.cons_append, splitChar, List.append_eq, ih h', if_neg ha]

theorem splitChar_joinLines (mid : List Chars) (hne : mid ≠ [])
    (h : ∀ l ∈ mid, '\n' ∉ l) :
    splitChar '\n' (joinLines mid) = mid := by
  induction mid with
  | nil => exact absurd rfl hne
  | cons l mid ih =>
    match mid with
    | [] => exact splitChar_no_sep l (h l (List.mem_cons_self l []))
    | l₂ :: mid' =>
      have hjoin : joinLines (l :: l₂ :: mid') = l ++ '\n' :: joinLines (l₂ :: mid') := rfl
      rw [hjoin, splitChar_cons_sep l _ (h l (List.mem_cons_self l _)),
        ih (by simp) (fun x hx => h x (List.mem_cons_of_mem l hx))]

/-- A non-empty plain block starts with a non-whitespace character, also
after appending a tail. -/
theorem joinLines_head (l : Chars) (m : List Chars) (t : Chars) (h1 : l ≠ []) :
    ∃ c cs, joinLines (l :: m) ++ t = c :: cs ∧ c = l.headD ' ' := by
  match l, h1 with
  | a :: l', _ =>
    match m with
    | [] => exact ⟨a, l' ++ t, rfl, rfl⟩
    | l₂ :: m' => exact ⟨a, (l' ++ '\n' :: joinLines (l₂ :: m')) ++ t, by simp [joinLines], rfl⟩

/-- Claim C4 (amended): the ingredient section runs from right after the
`## Ingrédients` heading to the next line starting with the two-character
marker `##` — which *includes* deeper sub-headings such as `###`, whose
following dash items are therefore *not* collected, and *excludes*
shallower single-`#` headings, which do not terminate the section — or to
the end of the document.  Within that span exactly the dash lines are
collected. -/
theorem claim_C4_amended (mid : List Chars) (rest : Chars) (hne : mid ≠ [])
    (hclean : ∀ l ∈ mid, plainLine l) :
    extract_ingredients (ingHeader ++ joinLines mid ++ '\n' :: '#' :: '#' :: rest)
      = mid.filterMap ingredientOfLine ∧
    extract_ingredients (ingHeader ++ joinLines mid)
      = mid.filterMap ingredientOfLine := by
  match mid, hne with
  | l :: mid', _ =>
    have hl := hclean l (List.mem_cons_self l mid')
    constructor
    · obtain ⟨c, cs, hcons, hhead⟩ := joinLines_head l mid' ('\n' :: '#' :: '#' :: rest) hl.1
      have hc : isPySpace c = false := hhead ▸ hl.2.1
      rw [extract_ingredients, List.append_assoc, hcons, searchIng_start c cs hc]
      show List.filterMap ingredientOfLine (splitChar '\n' (takeUntilNlHashHash (c :: cs))) = _
      rw [← hcons, takeUntil_joinLines_term (l :: mid') rest (by simp) hclean,
        splitChar_joinLines (l :: mid') (by simp) (fun x hx => (hclean x hx).2.2.1)]
    · obtain ⟨c, cs, hcons, hhead⟩ := joinLines_head l mid' [] hl.1
      rw [List.append_nil] at hcons
      have hc : isPySpace c = false := hhead ▸ hl.2.1
      rw [extract_ingredients, hcons, searchIng_start c cs hc]
      show List.filterMap ingredientOfLine (splitChar '\n' (takeUntilNlHashHash (c :: cs))) = _
      rw [← hcons, takeUntil_joinLines_eod (l :: mid') hclean,
        splitChar_joinLines (l :: mid') (by simp) (fun x hx => (hclean x hx).2.2.1)]

/-- Witness for the amended C4 at a concrete document: one dash item, a
single-`#` line that does not terminate, a further dash item, then a `###`
terminator. -/
theorem claim_C4_amended_witness :
    extract_ingredients (ingHeader ++ joinLines ["- a".data, "# mid".data, "- b".data]
        ++ '\n' :: '#' :: '#' :: "# deeper\n- after".data)
      = ["- a".data, "# mid".data, "- b".data].filterMap ingredientOfLine ∧
    extract_ingredients (ingHeader ++ joinLines ["- a".data, "# mid".data, "- b".data])
      = ["- a".data, "# mid".data, "- b".data].filterMap ingredientOfLine :=
  claim_C4_amended ["- a".data, "# mid".data, "- b".data] "# deeper\n- after".data
    (by decide) (by decide)

end MesRecettes
